import Mathlib

/-!
Verification of the game-segment detector in `split_lol_games.py`.

The detector scans a video, OCRs an on-screen clock once per sampling tick and
runs a two-state machine (IDLE / OPEN) over the resulting stream of
`(timestamp, optional clock value)` samples, emitting `(start, end)` segments.
We embed the state machine, the EOF handling, the repair ladder
`ensure_readable_video`, the batch cutter `cut_segments` and the CLI driver
`main` as pure Lean functions, and prove the spec's claims about them.

Timestamps and durations are rationals (Python floats with exact arithmetic on
the values the script manipulates); clock readings are natural numbers of
seconds; an unreadable sample is `none`.
-/

namespace SplitLolGames

/-- Module-level tunables of `split_lol_games.py` (lines 19-24), minus the
sampling interval which only shapes the sample stream. -/
structure Config where
  START_THRESHOLD_SEC : ℚ
  MIN_GAP_BETWEEN_GAMES : ℚ
  CLOCK_MISSING_LIMIT : ℕ
  TAIL_AFTER_CLOCK_MISS : ℚ
  MIN_SEGMENT_SEC : ℚ
deriving DecidableEq

/-- `SAMPLE_EVERY_SEC = 3.0` (line 19). -/
def SAMPLE_EVERY_SEC : ℚ := 3

/-- The constants hard-coded in the script (lines 20-24). -/
def defaultConfig : Config :=
  { START_THRESHOLD_SEC := 120
    MIN_GAP_BETWEEN_GAMES := 90
    CLOCK_MISSING_LIMIT := 10
    TAIL_AFTER_CLOCK_MISS := 20
    MIN_SEGMENT_SEC := 120 }

/-- One sampled frame reduced to `(t_sec, extract_clock_seconds result)`. -/
abbrev Sample := ℚ × Option ℕ

/-- The mutable loop state of `detect_segments` (lines 139-144). -/
structure DetectState where
  last_start_time : ℚ
  segments : List (ℚ × ℚ)
  open_segment_start : Option ℚ
  last_clock_seen_time : Option ℚ
  clock_missing_count : ℕ
deriving DecidableEq

/-- Initial loop state (lines 139-144): `last_start_time = -9999.0`, no
segments, no open segment, no clock seen, zero streak. -/
def initState : DetectState :=
  { last_start_time := -9999
    segments := []
    open_segment_start := none
    last_clock_seen_time := none
    clock_missing_count := 0 }

/-- Lines 164-168: a readable clock records `last_clock_seen_time` and resets
the missing streak; an unreadable sample increments the streak. -/
def readClock (st : DetectState) (t_sec : ℚ) (clock_val : Option ℕ) : DetectState :=
  match clock_val with
  | some _ => { st with last_clock_seen_time := some t_sec, clock_missing_count := 0 }
  | none => { st with clock_missing_count := st.clock_missing_count + 1 }

/-- Lines 170-174: with no open segment, a readable clock at or below the start
threshold opens a segment, provided the debounce gap since the previous start
is respected. -/
def maybeOpen (cfg : Config) (st : DetectState) (t_sec : ℚ) (clock_val : Option ℕ) :
    DetectState :=
  match st.open_segment_start, clock_val with
  | none, some v =>
    if (v : ℚ) ≤ cfg.START_THRESHOLD_SEC ∧
        cfg.MIN_GAP_BETWEEN_GAMES ≤ t_sec - st.last_start_time then
      { st with open_segment_start := some t_sec, last_start_time := t_sec }
    else st
  | _, _ => st

/-- Lines 176-184: with a segment open and the missing streak at or beyond the
limit (and a last clock sighting on record), close the segment at
`min (last seen + tail) duration`, keep it only if it reaches the minimum
length, and return to IDLE with a cleared streak. -/
def maybeClose (cfg : Config) (duration : ℚ) (st : DetectState) : DetectState :=
  match st.open_segment_start, st.last_clock_seen_time with
  | some oss, some lcs =>
    if cfg.CLOCK_MISSING_LIMIT ≤ st.clock_missing_count then
      { st with
        segments :=
          if cfg.MIN_SEGMENT_SEC ≤ min (lcs + cfg.TAIL_AFTER_CLOCK_MISS) duration - oss then
            st.segments ++ [(oss, min (lcs + cfg.TAIL_AFTER_CLOCK_MISS) duration)]
          else st.segments
        open_segment_start := none
        clock_missing_count := 0 }
    else st
  | _, _ => st

/-- One iteration of the sampling loop body of `detect_segments`
(lines 164-184), in the order the three blocks appear in the source. -/
def stepSample (cfg : Config) (duration : ℚ) (st : DetectState) (t_sec : ℚ)
    (clock_val : Option ℕ) : DetectState :=
  maybeClose cfg duration (maybeOpen cfg (readClock st t_sec clock_val) t_sec clock_val)

/-- The whole sampling loop (lines 148-187) over an explicit sample stream. -/
def runDetect (cfg : Config) (duration : ℚ) (st : DetectState)
    (stream : List Sample) : DetectState :=
  stream.foldl (fun s p => stepSample cfg duration s p.1 p.2) st

/-- Lines 191-196: end-of-stream handling; a still-open segment is closed at
the video duration, subject to the same minimum-length filter. -/
def finalize (cfg : Config) (duration : ℚ) (st : DetectState) : List (ℚ × ℚ) :=
  match st.open_segment_start with
  | some oss =>
    if cfg.MIN_SEGMENT_SEC ≤ duration - oss then st.segments ++ [(oss, duration)]
    else st.segments
  | none => st.segments

/-- `detect_segments` (lines 129-199) on an explicit sample stream: run the
loop from the initial state, then apply the end-of-stream close. -/
def detect_segments (cfg : Config) (duration : ℚ) (stream : List Sample) :
    List (ℚ × ℚ) :=
  finalize cfg duration (runDetect cfg duration initState stream)

/-- Line 134, `cap.get(cv2.CAP_PROP_FPS) or 30.0`: a reported frame rate of
zero (the OpenCV value when the metadata query fails) falls back to 30. -/
def effectiveFps (reported : ℚ) : ℚ :=
  if reported = 0 then 30 else reported

/-- Line 137, `step = max(1, int(fps * SAMPLE_EVERY_SEC))`; Python `int`
truncates toward zero, which agrees with the floor for the nonnegative values
at play, and the `max` makes the negative case irrelevant as well. -/
def sampleStep (fps : ℚ) : ℕ :=
  max 1 (Int.toNat ⌊fps * SAMPLE_EVERY_SEC⌋)

/-- The sample stream produced by the loop of lines 148-162: frames with index
a multiple of the step, in order, each reduced to its timestamp
`frame_idx / fps` and its clock reading. -/
def sampleStream (clockAt : ℕ → Option ℕ) (total_frames : ℕ) (fps : ℚ) (step : ℕ) :
    List Sample :=
  ((List.range total_frames).filter (fun i => i % step = 0)).map
    (fun (i : ℕ) => ((i : ℚ) / fps, clockAt i))

/-- `detect_segments` on a whole video (lines 129-199): frame-rate fallback,
duration `total_frames / fps`, sampling, loop, end-of-stream close.
`clockAt i` abstracts the OCR reading of frame `i`. -/
def detect_segments_video (clockAt : ℕ → Option ℕ) (total_frames : ℕ)
    (reported_fps : ℚ) : List (ℚ × ℚ) :=
  let fps := effectiveFps reported_fps
  detect_segments defaultConfig ((total_frames : ℚ) / fps)
    (sampleStream clockAt total_frames fps (sampleStep fps))

section Repair

/-- The observable environment of `ensure_readable_video` (lines 95-127):
whether each candidate file opens in OpenCV and whether each ffmpeg call
exits with status zero. -/
structure VideoEnv where
  opens_original : Bool
  remux_succeeds : Bool
  opens_remuxed : Bool
  reenc_succeeds : Bool
  opens_reenc : Bool
deriving DecidableEq

/-- Which file `ensure_readable_video` returns. -/
inductive RepairChoice
  | original
  | remuxed
  | reencoded
deriving DecidableEq

/-- Result of `ensure_readable_video`: the chosen file, or `none` for an
uncaught exception (the final `RuntimeError`, or the re-encode subprocess
failing with `check=True`), plus which repair tiers were attempted. -/
structure RepairOutcome where
  result : Option RepairChoice
  remux_attempted : Bool
  reenc_attempted : Bool
deriving DecidableEq

/-- `ensure_readable_video` (lines 95-127): return the original if it opens;
otherwise remux once (subprocess failure is swallowed by the bare `except`)
and return the remuxed file if the remux ran and its output opens; otherwise
re-encode once, returning the re-encoded file if the subprocess succeeded and
its output opens, and failing fatally otherwise. -/
def ensure_readable_video (env : VideoEnv) : RepairOutcome :=
  if env.opens_original then ⟨some .original, false, false⟩
  else if env.remux_succeeds && env.opens_remuxed then ⟨some .remuxed, true, false⟩
  else if env.reenc_succeeds && env.opens_reenc then ⟨some .reencoded, true, true⟩
  else ⟨none, true, true⟩

end Repair

section Cutting

/-- The loop of `cut_segments` (lines 206-226) from 1-based index `i`:
`runner j` tells whether the ffmpeg invocation for segment `j` exits with
status zero. Returns the indices actually invoked and `some j` when the
`check=True` call for segment `j` raised, which aborts the loop. -/
def cutFrom (runner : ℕ → Bool) : ℕ → List (ℚ × ℚ) → List ℕ × Option ℕ
  | _, [] => ([], none)
  | i, _ :: rest =>
    if runner i then
      let r := cutFrom runner (i + 1) rest
      (i :: r.1, r.2)
    else ([i], some i)

/-- `cut_segments` (lines 202-227) over an abstract transcoder runner. -/
def cut_segments (runner : ℕ → Bool) (segments : List (ℚ × ℚ)) :
    List ℕ × Option ℕ :=
  cutFrom runner 1 segments

end Cutting

section Cli

/-- Abstract effects of one `main` run: the repair environment, what the
detector returns on the repaired file, and the cut runner. -/
structure RunEnv where
  video : VideoEnv
  detected : List (ℚ × ℚ)
  cutRunner : ℕ → Bool

/-- How a `main` call terminates. -/
inductive MainOutcome
  | unreadableError
  | noSegments
  | cutFailed (i : ℕ)
  | completed
deriving DecidableEq

/-- `main` (lines 229-239): repair, detect, return early on an empty segment
list, otherwise cut. Paired with the 1-based cut invocations attempted. -/
def main (env : RunEnv) : MainOutcome × List ℕ :=
  match (ensure_readable_video env.video).result with
  | none => (.unreadableError, [])
  | some _ =>
    if env.detected = [] then (.noSegments, [])
    else
      match cut_segments env.cutRunner env.detected with
      | (att, some i) => (.cutFailed i, att)
      | (att, none) => (.completed, att)

/-- Exit code of the `python split_lol_games.py in out` process
(lines 241-249): an uncaught exception exits with code 1, a normal return
from `main` exits with code 0. -/
def exitCode : MainOutcome → ℕ
  | .unreadableError => 1
  | .cutFailed _ => 1
  | .noSegments => 0
  | .completed => 0

/-- Process exit code of one scripted run. -/
def script_exit (env : RunEnv) : ℕ :=
  exitCode (main env).1

end Cli

/-- Samples spaced at least `Δ` apart (the real loop emits one sample every
`step / fps` seconds). -/
abbrev Spaced (Δ : ℚ) (s : List Sample) : Prop :=
  s.Chain' fun a b => a.1 + Δ ≤ b.1

/-- Invariant of the detection loop, for sample streams spaced at least `Δ`
apart, after processing a prefix whose last sample time is at most `tcur`:
emitted segments are strictly ordered, long enough, disjoint and in the past;
an open segment has a recorded clock sighting between its start and now, the
missing streak accounts for the time elapsed since that sighting, and all
emitted segments end at or before the open start. -/
structure DetectInv (cfg : Config) (Δ : ℚ) (st : DetectState) (tcur : ℚ) : Prop where
  seg_sorted : st.segments.Pairwise fun p q => p.1 < q.1 ∧ p.2 ≤ q.1
  seg_min : ∀ p ∈ st.segments, cfg.MIN_SEGMENT_SEC ≤ p.2 - p.1
  seg_bound : ∀ p ∈ st.segments, p.1 ≤ tcur ∧ p.2 ≤ tcur
  open_lcs : ∀ oss, st.open_segment_start = some oss →
    ∃ lcs, st.last_clock_seen_time = some lcs ∧ oss ≤ lcs ∧ lcs ≤ tcur ∧
      lcs + (st.clock_missing_count : ℚ) * Δ ≤ tcur
  open_segs : ∀ oss, st.open_segment_start = some oss →
    ∀ p ∈ st.segments, p.1 < oss ∧ p.2 ≤ oss

/-- The synthetic sample stream of the spec's testable property: readings
`125, 118, 95, 70` at `t = 0, 3, 6, 9`, readable samples up to `t = 297`,
unreadable samples at `t = 300 .. 330`, and a reading of `5` at `t = 333`. -/
def clockC2 (k : ℕ) : Option ℕ :=
  if k = 0 then some 125
  else if k = 1 then some 118
  else if k = 2 then some 95
  else if k = 3 then some 70
  else if k ≤ 99 then some 200
  else if k ≤ 110 then none
  else some 5

/-- The spec's synthetic stream, one sample every 3 seconds. -/
def c2stream : List Sample :=
  (List.range 112).map fun k => (((3 * k : ℕ) : ℚ), clockC2 k)

/-- An adversarial but legal configuration: tail padding larger than the time
covered by the missing-clock limit. -/
def cexConfig : Config :=
  { START_THRESHOLD_SEC := 120
    MIN_GAP_BETWEEN_GAMES := 5
    CLOCK_MISSING_LIMIT := 2
    TAIL_AFTER_CLOCK_MISS := 50
    MIN_SEGMENT_SEC := 10 }

/-- A second-by-second sample stream on which `cexConfig` produces two
overlapping segments. -/
def c1cexStream : List Sample :=
  [(0, some 50), (1, some 50), (2, none), (3, none), (4, some 5), (5, some 5),
   (6, some 50), (7, some 50), (8, none), (9, none), (10, none), (11, none)]

/-- A 3-second-spaced stream with one game: clock readable up to `t = 150`,
then misses until the stream ends. -/
def w1stream : List Sample :=
  (List.range 61).map fun k => (((3 * k : ℕ) : ℚ), if k ≤ 50 then some 100 else none)

/-- A stream that opens a segment at `t = 0` and then misses nine times, so
the machine is one miss away from the closing threshold. -/
def w9stream : List Sample :=
  (List.range 10).map fun k => (((1 * k : ℕ) : ℚ), if k = 0 then some 50 else none)

/-- A transcoder runner whose invocation for segment 2 fails. -/
def r3 : ℕ → Bool := fun i => i ≠ 2

/-- Three segments to cut. -/
def c3segs : List (ℚ × ℚ) := [(0, 10), (20, 30), (40, 50)]

set_option maxRecDepth 10000

section PhaseLemmas

theorem spaced_range_map (f : ℕ → Option ℕ) (n m : ℕ) :
    Spaced (m : ℚ) ((List.range n).map fun k => (((m * k : ℕ) : ℚ), f k)) := by
  refine List.Pairwise.chain' ?_
  rw [List.pairwise_map]
  refine (List.pairwise_lt_range n).imp ?_
  intro a b hab
  have h1 : (a : ℚ) + 1 ≤ (b : ℚ) := by exact_mod_cast hab
  have h2 : (0 : ℚ) ≤ (m : ℚ) := by positivity
  push_cast
  nlinarith

theorem Spaced.mono {Δ : ℚ} {s : List Sample} (h : Spaced Δ s) (hΔ : 0 ≤ Δ) :
    s.Chain' fun a b => a.1 ≤ b.1 :=
  List.Chain'.imp (fun a b hab => by linarith) h

theorem readClock_some (st : DetectState) (t : ℚ) (v : ℕ) :
    readClock st t (some v) =
      { st with last_clock_seen_time := some t, clock_missing_count := 0 } := rfl

theorem readClock_none (st : DetectState) (t : ℚ) :
    readClock st t none =
      { st with clock_missing_count := st.clock_missing_count + 1 } := rfl

theorem maybeOpen_miss (cfg : Config) (st : DetectState) (t : ℚ) :
    maybeOpen cfg st t none = st := by
  cases h : st.open_segment_start <;> simp [maybeOpen, h]

theorem maybeOpen_open (cfg : Config) (st : DetectState) (t : ℚ) (c : Option ℕ)
    (o : ℚ) (h : st.open_segment_start = some o) :
    maybeOpen cfg st t c = st := by
  cases c <;> simp [maybeOpen, h]

theorem maybeOpen_idle (cfg : Config) (st : DetectState) (t : ℚ) (v : ℕ)
    (h : st.open_segment_start = none) :
    maybeOpen cfg st t (some v) =
      if (v : ℚ) ≤ cfg.START_THRESHOLD_SEC ∧
          cfg.MIN_GAP_BETWEEN_GAMES ≤ t - st.last_start_time then
        { st with open_segment_start := some t, last_start_time := t }
      else st := by
  simp [maybeOpen, h]

theorem maybeClose_idle (cfg : Config) (d : ℚ) (st : DetectState)
    (h : st.open_segment_start = none) :
    maybeClose cfg d st = st := by
  cases h2 : st.last_clock_seen_time <;> simp [maybeClose, h, h2]

theorem maybeClose_noLcs (cfg : Config) (d : ℚ) (st : DetectState)
    (h : st.last_clock_seen_time = none) :
    maybeClose cfg d st = st := by
  cases h2 : st.open_segment_start <;> simp [maybeClose, h, h2]

theorem maybeClose_open (cfg : Config) (d : ℚ) (st : DetectState) (o l : ℚ)
    (h1 : st.open_segment_start = some o) (h2 : st.last_clock_seen_time = some l) :
    maybeClose cfg d st =
      if cfg.CLOCK_MISSING_LIMIT ≤ st.clock_missing_count then
        { st with
          segments :=
            if cfg.MIN_SEGMENT_SEC ≤ min (l + cfg.TAIL_AFTER_CLOCK_MISS) d - o then
              st.segments ++ [(o, min (l + cfg.TAIL_AFTER_CLOCK_MISS) d)]
            else st.segments
          open_segment_start := none
          clock_missing_count := 0 }
      else st := by
  simp [maybeClose, h1, h2]

theorem runDetect_cons (cfg : Config) (d : ℚ) (st : DetectState) (x : Sample)
    (xs : List Sample) :
    runDetect cfg d st (x :: xs) = runDetect cfg d (stepSample cfg d st x.1 x.2) xs := rfl

theorem runDetect_nil (cfg : Config) (d : ℚ) (st : DetectState) :
    runDetect cfg d st [] = st := rfl

theorem finalize_open (cfg : Config) (d : ℚ) (st : DetectState) (oss : ℚ)
    (h : st.open_segment_start = some oss) :
    finalize cfg d st =
      if cfg.MIN_SEGMENT_SEC ≤ d - oss then st.segments ++ [(oss, d)]
      else st.segments := by
  simp [finalize, h]

theorem finalize_idle (cfg : Config) (d : ℚ) (st : DetectState)
    (h : st.open_segment_start = none) :
    finalize cfg d st = st.segments := by
  simp [finalize, h]

end PhaseLemmas

/-- C10: a reported frame rate of zero (OpenCV's value when the metadata query
fails) is silently replaced by 30 frames per second, and the whole detection —
sample timestamps, video duration, segment boundaries — proceeds with the
fallback value instead of failing. -/
theorem detect_video_fps_fallback (clockAt : ℕ → Option ℕ) (n : ℕ) :
    detect_segments_video clockAt n 0 = detect_segments_video clockAt n 30 ∧
    effectiveFps 0 = 30 ∧
    (n : ℚ) / effectiveFps 0 = (n : ℚ) / 30 := by
  refine ⟨?_, ?_, ?_⟩ <;> simp [detect_segments_video, effectiveFps]

/-- C8: the detector is deterministic — its output is a function of the
per-frame clock readings (and the fixed configuration) alone: two runs whose
readings agree on every frame of the video produce identical segment lists. -/
theorem detect_video_deterministic (c₁ c₂ : ℕ → Option ℕ) (n : ℕ) (fps : ℚ)
    (h : ∀ i < n, c₁ i = c₂ i) :
    detect_segments_video c₁ n fps = detect_segments_video c₂ n fps := by
  have hs : sampleStream c₁ n (effectiveFps fps) (sampleStep (effectiveFps fps)) =
      sampleStream c₂ n (effectiveFps fps) (sampleStep (effectiveFps fps)) := by
    unfold sampleStream
    apply List.map_congr_left
    intro i hi
    rw [h i (List.mem_range.mp (List.mem_filter.mp hi).1)]
  simp only [detect_segments_video]
  rw [hs]

/-- Witness for C8 at a concrete video of 10 frames. -/
theorem detect_video_deterministic_witness :
    detect_segments_video (fun _ => some 50) 10 30 =
      detect_segments_video (fun i => if i < 10 then some 50 else none) 10 30 := by
  exact detect_video_deterministic _ _ 10 30 (fun i hi => by simp [hi])

/-- C7: when the sample stream ends while a segment is open, the segment is
closed at the video's total duration (not at the last clock sighting plus the
tail padding) and passes through the same minimum-duration filter. -/
theorem detect_segments_eof_close (cfg : Config) (d : ℚ) (stream : List Sample)
    (oss : ℚ) (h : (runDetect cfg d initState stream).open_segment_start = some oss) :
    detect_segments cfg d stream =
      (runDetect cfg d initState stream).segments ++
        (if cfg.MIN_SEGMENT_SEC ≤ d - oss then [(oss, d)] else []) := by
  unfold detect_segments
  rw [finalize_open cfg d _ oss h]
  split <;> simp

/-- Witness for C7: a two-sample stream that is still open at end of stream
closes at the duration 200, not at 3 + 20. -/
theorem detect_segments_eof_close_witness :
    detect_segments defaultConfig 200 [((0 : ℚ), some 50), (3, some 60)] = [(0, 200)] := by
  rw [detect_segments_eof_close defaultConfig 200 [((0 : ℚ), some 50), (3, some 60)] 0
    (by with_unfolding_all decide)]
  with_unfolding_all decide

/-- C6: the repair ladder of `ensure_readable_video` has exactly three tiers
and no retry loop: a file that opens is used as is; otherwise one remux is
attempted, and if the remux ran and its output opens, the remuxed file is used
and the re-encode is never attempted; otherwise one re-encode is attempted,
whose failure (subprocess or open) is fatal with no further repair. -/
theorem ensure_readable_video_tiered (env : VideoEnv) :
    (env.opens_original = true →
      ensure_readable_video env = ⟨some RepairChoice.original, false, false⟩) ∧
    (env.opens_original = false →
      (ensure_readable_video env).remux_attempted = true) ∧
    (env.opens_original = false → env.remux_succeeds = true → env.opens_remuxed = true →
      ensure_readable_video env = ⟨some RepairChoice.remuxed, true, false⟩) ∧
    (env.opens_original = false → (env.remux_succeeds && env.opens_remuxed) = false →
      (ensure_readable_video env).reenc_attempted = true ∧
      ((env.reenc_succeeds && env.opens_reenc) = true →
        (ensure_readable_video env).result = some RepairChoice.reencoded) ∧
      ((env.reenc_succeeds && env.opens_reenc) = false →
        (ensure_readable_video env).result = none)) := by
  obtain ⟨a, b, c, d, e⟩ := env
  cases a <;> cases b <;> cases c <;> cases d <;> cases e <;> decide

/-- Witness for C6: a corrupt container that fails direct open but remuxes
into an openable file is used in remuxed form, with no re-encode attempt. -/
theorem ensure_readable_video_tiered_witness :
    ensure_readable_video ⟨false, true, true, false, false⟩ =
      ⟨some RepairChoice.remuxed, true, false⟩ ∧
    (ensure_readable_video ⟨false, true, true, false, false⟩).reenc_attempted = false := by
  have h := ensure_readable_video_tiered ⟨false, true, true, false, false⟩
  refine ⟨h.2.2.1 rfl rfl rfl, ?_⟩
  rw [h.2.2.1 rfl rfl rfl]

/-- C3 counterexample: with three segments and a runner whose invocation for
segment 2 exits non-zero, `cut_segments` raises at segment 2 and never invokes
the transcoder for segment 3 — failures are not collected and the batch does
not continue, contrary to the claim. -/
theorem cut_segments_counterexample :
    cut_segments r3 c3segs = ([1, 2], some 2) ∧
    3 ∉ (cut_segments r3 c3segs).1 ∧
    c3segs.length = 3 := by decide

theorem cutFrom_fail (runner : ℕ → Bool) :
    ∀ (segs : List (ℚ × ℚ)) (j i : ℕ), (cutFrom runner j segs).2 = some i →
      (cutFrom runner j segs).1 = List.range' j (i + 1 - j) ∧ runner i = false ∧
        j ≤ i ∧ i < j + segs.length := by
  intro segs
  induction segs with
  | nil => intro j i h; simp [cutFrom] at h
  | cons x rest ih =>
    intro j i h
    by_cases hr : runner j
    · have hcf : cutFrom runner j (x :: rest) =
          (j :: (cutFrom runner (j + 1) rest).1, (cutFrom runner (j + 1) rest).2) := by
        simp [cutFrom, hr]
      rw [hcf] at h
      obtain ⟨h1, h2, h3, h4⟩ := ih (j + 1) i h
      rw [hcf]
      have hj : i + 1 - j = (i + 1 - (j + 1)) + 1 := by omega
      rw [hj, List.range'_succ, h1]
      exact ⟨rfl, h2, by omega, by rw [List.length_cons]; omega⟩
    · have hcf : cutFrom runner j (x :: rest) = ([j], some j) := by
        simp [cutFrom, hr]
      rw [hcf] at h
      obtain rfl : j = i := Option.some.inj h
      rw [hcf]
      have h1 : j + 1 - j = 1 := by omega
      rw [h1, List.range'_succ]
      exact ⟨rfl, by simpa using hr, le_refl j, by rw [List.length_cons]; omega⟩

/-- C3 amended: each per-segment invocation runs with `check=True`, so the
first failing invocation raises and aborts the batch — exactly the segments up
to and including the failing index are attempted, and the error propagates
instead of being collected and reported after the batch. -/
theorem cut_segments_abort_on_failure (runner : ℕ → Bool) (segs : List (ℚ × ℚ))
    (i : ℕ) (h : (cut_segments runner segs).2 = some i) :
    (cut_segments runner segs).1 = List.range' 1 i ∧ runner i = false ∧
      1 ≤ i ∧ i ≤ segs.length := by
  obtain ⟨h1, h2, h3, h4⟩ := cutFrom_fail runner segs 1 i h
  exact ⟨by simpa using h1, h2, h3, by omega⟩

/-- Witness for the amended C3 at the concrete failing batch. -/
theorem cut_segments_abort_on_failure_witness :
    (cut_segments r3 c3segs).1 = List.range' 1 2 ∧ r3 2 = false ∧
      1 ≤ 2 ∧ 2 ≤ c3segs.length :=
  cut_segments_abort_on_failure r3 c3segs 2 (by decide)

/-- C4 counterexample: with a readable source video and zero detected
segments, the process prints the message, returns normally and exits with
status 0 — not non-zero as claimed (no cutting is attempted, which does hold). -/
theorem script_exit_counterexample :
    script_exit ⟨⟨true, true, true, true, true⟩, [], fun _ => true⟩ = 0 ∧
    (main ⟨⟨true, true, true, true, true⟩, [], fun _ => true⟩).2 = [] ∧
    (main ⟨⟨true, true, true, true, true⟩, [], fun _ => true⟩).1 =
      MainOutcome.noSegments := by decide

/-- C4 amended: the CLI exits non-zero when the source video cannot be opened
or repaired (the exception escapes `main`), with no cutting; but when
detection finds zero segments it prints a message and exits with status 0 —
still performing no cutting. -/
theorem script_exit_spec (env : RunEnv) :
    ((ensure_readable_video env.video).result = none →
      script_exit env = 1 ∧ (main env).2 = []) ∧
    ((ensure_readable_video env.video).result ≠ none → env.detected = [] →
      script_exit env = 0 ∧ (main env).2 = []) := by
  constructor
  · intro h
    simp [script_exit, main, h, exitCode]
  · intro h1 h2
    obtain ⟨r, hr⟩ := Option.ne_none_iff_exists'.mp h1
    simp [script_exit, main, hr, h2, exitCode]

/-- Witness for the amended C4 at two concrete runs: an unreadable video
exits 1; a readable video with zero segments exits 0 and cuts nothing. -/
theorem script_exit_spec_witness :
    (script_exit ⟨⟨false, false, false, false, false⟩, [(0, 200)], fun _ => true⟩ = 1) ∧
    (script_exit ⟨⟨true, true, true, true, true⟩, [], fun _ => true⟩ = 0) := by
  exact ⟨((script_exit_spec _).1 (by decide)).1, ((script_exit_spec _).2 (by decide) rfl).1⟩

/-- C2 counterexample: on the spec's synthetic stream the first reading at or
below the threshold 120 is the 118 at `t = 3`, so the machine opens at `t = 3`,
not at `t = 6`: no emitted segment starts at 6. -/
theorem detect_c2_counterexample :
    c2stream[1]? = some (3, some 118) ∧ (118 : ℚ) ≤ 120 ∧
    (runDetect defaultConfig 350 initState (c2stream.take 2)).open_segment_start =
      some 3 ∧
    detect_segments defaultConfig 350 c2stream = [(3, 317)] ∧
    ∀ p ∈ detect_segments defaultConfig 350 c2stream, p.1 ≠ (6 : ℚ) := by
  with_unfolding_all decide

/-- C2 amended: on the synthetic stream with the default tunables, the machine
opens at `t = 3` (the first reading at or below 120, namely 118), stays open
through the readable samples, closes at the tenth consecutive miss (`t = 327`)
with `end = 297 + 20 = 317`, emits `(3, 317)`, and a second segment opens at
`t = 333` because `333 - 3 ≥ 90` (it is discarded at end of stream as shorter
than the 120-second minimum). -/
theorem detect_c2_run :
    (runDetect defaultConfig 350 initState (c2stream.take 1)).open_segment_start =
      none ∧
    (runDetect defaultConfig 350 initState (c2stream.take 2)).open_segment_start =
      some 3 ∧
    (runDetect defaultConfig 350 initState (c2stream.take 109)).segments = [] ∧
    (runDetect defaultConfig 350 initState (c2stream.take 109)).open_segment_start =
      some 3 ∧
    (runDetect defaultConfig 350 initState (c2stream.take 110)).segments =
      [(3, 317)] ∧
    (runDetect defaultConfig 350 initState (c2stream.take 110)).open_segment_start =
      none ∧
    (runDetect defaultConfig 350 initState c2stream).open_segment_start = some 333 ∧
    detect_segments defaultConfig 350 c2stream = [(3, 317)] := by
  with_unfolding_all decide

/-- C5: while a segment is open (with a clock sighting on record, which C9
shows always holds), the close transition fires exactly when the missing
streak reaches the limit on an unreadable sample: the end is
`min (last sighting + tail) duration`, the segment is emitted if and only if
it is at least the minimum length (discarded silently otherwise), and the
machine returns to IDLE with a cleared streak; below the limit the sample only
increments the streak, and a readable sample resets the streak, so it never
closes. -/
theorem stepSample_close_rules (cfg : Config) (d : ℚ) (st : DetectState)
    (t oss lcs : ℚ) (hopen : st.open_segment_start = some oss)
    (hlcs : st.last_clock_seen_time = some lcs)
    (hlim : 1 ≤ cfg.CLOCK_MISSING_LIMIT) :
    (cfg.CLOCK_MISSING_LIMIT ≤ st.clock_missing_count + 1 →
      stepSample cfg d st t none =
        { st with
          segments :=
            if cfg.MIN_SEGMENT_SEC ≤ min (lcs + cfg.TAIL_AFTER_CLOCK_MISS) d - oss then
              st.segments ++ [(oss, min (lcs + cfg.TAIL_AFTER_CLOCK_MISS) d)]
            else st.segments
          open_segment_start := none
          clock_missing_count := 0 }) ∧
    (st.clock_missing_count + 1 < cfg.CLOCK_MISSING_LIMIT →
      stepSample cfg d st t none =
        { st with clock_missing_count := st.clock_missing_count + 1 }) ∧
    (∀ v : ℕ, stepSample cfg d st t (some v) =
      { st with last_clock_seen_time := some t, clock_missing_count := 0 }) := by
  obtain ⟨ls, segs, os, lc, cm⟩ := st
  obtain rfl : os = some oss := hopen
  obtain rfl : lc = some lcs := hlcs
  refine ⟨fun hcm => ?_, fun hcm => ?_, fun v => ?_⟩
  · simp [stepSample, readClock, maybeOpen, maybeClose, hcm]
  · simp [stepSample, readClock, maybeOpen, maybeClose, Nat.not_le.mpr hcm]
  · have h0 : ¬ (cfg.CLOCK_MISSING_LIMIT ≤ 0) := by omega
    simp [stepSample, readClock, maybeOpen, maybeClose, h0]

/-- Witness for C5: one miss past the limit closes the open segment at
`min (297 + 20) 350 = 317` and emits it. -/
theorem stepSample_close_rules_witness :
    stepSample defaultConfig 350 ⟨0, [], some 3, some 297, 9⟩ 330 none =
      ⟨0, [(3, 317)], none, some 297, 0⟩ := by
  rw [(stepSample_close_rules defaultConfig 350 ⟨0, [], some 3, some 297, 9⟩ 330 3 297
    rfl rfl (by with_unfolding_all decide)).1 (by with_unfolding_all decide)]
  with_unfolding_all decide

theorem stepSample_closes (cfg : Config) (d : ℚ) (st : DetectState) (t oss lcs : ℚ)
    (hopen : st.open_segment_start = some oss)
    (hlcs : st.last_clock_seen_time = some lcs)
    (hcm : cfg.CLOCK_MISSING_LIMIT ≤ st.clock_missing_count + 1) :
    (stepSample cfg d st t none).open_segment_start = none := by
  obtain ⟨ls, segs, os, lc, cm⟩ := st
  obtain rfl : os = some oss := hopen
  obtain rfl : lc = some lcs := hlcs
  simp [stepSample, readClock, maybeOpen, maybeClose, hcm]

theorem stepSample_openLcs {cfg : Config} {d : ℚ} {st : DetectState}
    {tprev t : ℚ} {c : Option ℕ}
    (hinv : ∀ o, st.open_segment_start = some o →
      ∃ l, st.last_clock_seen_time = some l ∧ o ≤ l ∧ l ≤ tprev)
    (hle : tprev ≤ t) :
    ∀ o, (stepSample cfg d st t c).open_segment_start = some o →
      ∃ l, (stepSample cfg d st t c).last_clock_seen_time = some l ∧
        o ≤ l ∧ l ≤ t := by
  obtain ⟨ls, segs, os, lc, cm⟩ := st
  cases c with
  | none =>
    cases os with
    | none =>
      intro o ho
      simp [stepSample, readClock, maybeOpen, maybeClose] at ho
    | some o₀ =>
      obtain ⟨l₀, hl₀, h1, h2⟩ := hinv o₀ rfl
      obtain rfl : lc = some l₀ := hl₀
      by_cases hcm : cfg.CLOCK_MISSING_LIMIT ≤ cm + 1
      · intro o ho
        simp [stepSample, readClock, maybeOpen, maybeClose, hcm] at ho
      · intro o ho
        simp [stepSample, readClock, maybeOpen, maybeClose, hcm] at ho ⊢
        exact ⟨ho ▸ h1, h2.trans hle⟩
  | some v =>
    cases os with
    | some o₀ =>
      obtain ⟨l₀, hl₀, h1, h2⟩ := hinv o₀ rfl
      by_cases hcm : cfg.CLOCK_MISSING_LIMIT ≤ 0
      · intro o ho
        simp [stepSample, readClock, maybeOpen, maybeClose, hcm] at ho
      · intro o ho
        simp [stepSample, readClock, maybeOpen, maybeClose, hcm] at ho ⊢
        exact ho ▸ (h1.trans (h2.trans hle))
    | none =>
      by_cases hg : (v : ℚ) ≤ cfg.START_THRESHOLD_SEC ∧
          cfg.MIN_GAP_BETWEEN_GAMES ≤ t - ls
      · by_cases hcm : cfg.CLOCK_MISSING_LIMIT ≤ 0
        · intro o ho
          simp [stepSample, readClock, maybeOpen, maybeClose, hg, hcm] at ho
        · intro o ho
          simp [stepSample, readClock, maybeOpen, maybeClose, hg, hcm] at ho ⊢
          exact ho.ge
      · intro o ho
        simp [stepSample, readClock, maybeOpen, maybeClose, hg] at ho

theorem runDetect_openLcs (cfg : Config) (d : ℚ) :
    ∀ (s : List Sample) (st : DetectState) (t0 : ℚ),
      (∀ o, st.open_segment_start = some o →
        ∃ l, st.last_clock_seen_time = some l ∧ o ≤ l ∧ l ≤ t0) →
      List.Chain' (fun a b => a ≤ b) (t0 :: s.map Prod.fst) →
      ∀ o, (runDetect cfg d st s).open_segment_start = some o →
        ∃ l, (runDetect cfg d st s).last_clock_seen_time = some l ∧ o ≤ l ∧
          l ≤ (s.map Prod.fst).getLastD t0 := by
  intro s
  induction s with
  | nil => intro st t0 hinv _; simpa [runDetect] using hinv
  | cons x xs ih =>
    intro st t0 hinv hchain
    rw [List.map_cons] at hchain ⊢
    rw [List.getLastD_cons, runDetect_cons]
    have h1 : t0 ≤ x.1 := (List.chain'_cons.mp hchain).1
    exact ih (stepSample cfg d st x.1 x.2) x.1 (stepSample_openLcs hinv h1)
      (List.chain'_cons.mp hchain).2

theorem getLastD_map_fst (s : List Sample) : ∀ (hne : s ≠ []) (t0 : ℚ),
    (s.map Prod.fst).getLastD t0 = (s.getLast hne).1 := by
  induction s with
  | nil => intro h; exact absurd rfl h
  | cons x xs ih =>
    intro hne t0
    cases xs with
    | nil => rfl
    | cons y ys =>
      rw [List.map_cons, List.getLastD_cons, ih (List.cons_ne_nil y ys) x.1]
      congr 1

/-- C9: whenever the loop leaves a segment open, a last clock sighting is on
record — between the open start and the last sample processed — because the
opening sample itself carried a readable clock; consequently the guard on
`last_clock_seen_time` in the close branch never blocks a close once the
missing streak reaches the limit. -/
theorem detect_open_invariant (cfg : Config) (d : ℚ) (s : List Sample)
    (hmono : s.Chain' fun a b => a.1 ≤ b.1) (hne : s ≠ []) (oss : ℚ)
    (hop : (runDetect cfg d initState s).open_segment_start = some oss) :
    (∃ lcs, (runDetect cfg d initState s).last_clock_seen_time = some lcs ∧
      oss ≤ lcs ∧ lcs ≤ (s.getLast hne).1) ∧
    ∀ t, cfg.CLOCK_MISSING_LIMIT ≤ (runDetect cfg d initState s).clock_missing_count + 1 →
      (stepSample cfg d (runDetect cfg d initState s) t none).open_segment_start = none := by
  have hmain : ∃ lcs, (runDetect cfg d initState s).last_clock_seen_time = some lcs ∧
      oss ≤ lcs ∧ lcs ≤ (s.getLast hne).1 := by
    cases s with
    | nil => exact absurd rfl hne
    | cons x xs =>
      have hchain : List.Chain' (fun a b => a ≤ b) (x.1 :: (x :: xs).map Prod.fst) := by
        rw [List.map_cons]
        exact List.chain'_cons.mpr ⟨le_refl x.1, (List.chain'_map Prod.fst).mpr hmono⟩
      have h := runDetect_openLcs cfg d (x :: xs) initState x.1
        (fun o ho => by simp [initState] at ho) hchain oss hop
      rw [getLastD_map_fst (x :: xs) hne x.1] at h
      exact h
  refine ⟨hmain, fun t hcm => ?_⟩
  obtain ⟨lcs, hl, _, _⟩ := hmain
  exact stepSample_closes cfg d _ t oss lcs hop hl hcm

/-- Witness for C9: after one readable sample and nine misses the segment is
still open with the sighting recorded at 0, and the next miss closes it. -/
theorem detect_open_invariant_witness :
    (∃ lcs,
      (runDetect defaultConfig 1000 initState w9stream).last_clock_seen_time = some lcs ∧
      (0 : ℚ) ≤ lcs ∧ lcs ≤ (w9stream.getLast (by with_unfolding_all decide)).1) ∧
    (stepSample defaultConfig 1000 (runDetect defaultConfig 1000 initState w9stream)
      20 none).open_segment_start = none := by
  have h := detect_open_invariant defaultConfig 1000 w9stream
    ((spaced_range_map _ 10 1).mono (by norm_num)) (by with_unfolding_all decide) 0
    (by with_unfolding_all decide)
  exact ⟨h.1, h.2 20 (by with_unfolding_all decide)⟩

theorem initState_inv (cfg : Config) (Δ : ℚ) (t0 : ℚ) : DetectInv cfg Δ initState t0 := by
  refine ⟨List.Pairwise.nil, ?_, ?_, ?_, ?_⟩ <;> simp [initState]

theorem readOpen_miss (cfg : Config) (st : DetectState) (t : ℚ) :
    maybeOpen cfg (readClock st t none) t none =
      { st with clock_missing_count := st.clock_missing_count + 1 } := by
  rw [readClock_none, maybeOpen_miss]

theorem readOpen_seen_open (cfg : Config) (st : DetectState) (t : ℚ) (v : ℕ) (o₀ : ℚ)
    (hos : st.open_segment_start = some o₀) :
    maybeOpen cfg (readClock st t (some v)) t (some v) =
      { st with last_clock_seen_time := some t, clock_missing_count := 0 } := by
  rw [readClock_some]
  exact maybeOpen_open cfg _ t (some v) o₀ hos

theorem readOpen_seen_idle (cfg : Config) (st : DetectState) (t : ℚ) (v : ℕ)
    (hos : st.open_segment_start = none) :
    maybeOpen cfg (readClock st t (some v)) t (some v) =
      if (v : ℚ) ≤ cfg.START_THRESHOLD_SEC ∧
          cfg.MIN_GAP_BETWEEN_GAMES ≤ t - st.last_start_time then
        { st with
            last_clock_seen_time := some t
            clock_missing_count := 0
            open_segment_start := some t
            last_start_time := t }
      else { st with last_clock_seen_time := some t, clock_missing_count := 0 } := by
  rw [readClock_some,
    maybeOpen_idle cfg
      { st with last_clock_seen_time := some t, clock_missing_count := 0 } t v hos]

theorem readOpen_inv {cfg : Config} {Δ : ℚ} (hΔ : 0 < Δ) {st : DetectState}
    {tprev t : ℚ} {c : Option ℕ}
    (hinv : DetectInv cfg Δ st tprev) (hstep : tprev + Δ ≤ t) :
    DetectInv cfg Δ (maybeOpen cfg (readClock st t c) t c) t := by
  have htp : tprev ≤ t := by linarith
  have htlt : tprev < t := by linarith
  cases c with
  | none =>
    rw [readOpen_miss]
    refine ⟨hinv.seg_sorted, hinv.seg_min, ?_, ?_, ?_⟩
    · exact fun p hp =>
        ⟨(hinv.seg_bound p hp).1.trans htp, (hinv.seg_bound p hp).2.trans htp⟩
    · intro o ho
      obtain ⟨l, hl, a1, a2, a3⟩ := hinv.open_lcs o ho
      refine ⟨l, hl, a1, a2.trans htp, ?_⟩
      push_cast
      have hexp : ((st.clock_missing_count : ℚ) + 1) * Δ =
          (st.clock_missing_count : ℚ) * Δ + Δ := by ring
      linarith
    · exact fun o ho => hinv.open_segs o ho
  | some v =>
    cases hos : st.open_segment_start with
    | some o₀ =>
      rw [readOpen_seen_open cfg st t v o₀ hos]
      obtain ⟨l₀, hl₀, a1, a2, a3⟩ := hinv.open_lcs o₀ hos
      refine ⟨hinv.seg_sorted, hinv.seg_min, ?_, ?_, ?_⟩
      · exact fun p hp =>
          ⟨(hinv.seg_bound p hp).1.trans htp, (hinv.seg_bound p hp).2.trans htp⟩
      · intro o ho
        obtain rfl : o₀ = o := Option.some.inj (hos.symm.trans ho)
        exact ⟨t, rfl, a1.trans (a2.trans htp), le_refl t, by simp⟩
      · intro o ho
        obtain rfl : o₀ = o := Option.some.inj (hos.symm.trans ho)
        exact hinv.open_segs o₀ hos
    | none =>
      rw [readOpen_seen_idle cfg st t v hos]
      split
      · refine ⟨hinv.seg_sorted, hinv.seg_min, ?_, ?_, ?_⟩
        · exact fun p hp =>
            ⟨(hinv.seg_bound p hp).1.trans htp, (hinv.seg_bound p hp).2.trans htp⟩
        · intro o ho
          obtain rfl : t = o := Option.some.inj ho
          exact ⟨t, rfl, le_refl t, le_refl t, by simp⟩
        · intro o ho p hp
          obtain rfl : t = o := Option.some.inj ho
          exact ⟨(hinv.seg_bound p hp).1.trans_lt htlt, (hinv.seg_bound p hp).2.trans htp⟩
      · refine ⟨hinv.seg_sorted, hinv.seg_min, ?_, ?_, ?_⟩
        · exact fun p hp =>
            ⟨(hinv.seg_bound p hp).1.trans htp, (hinv.seg_bound p hp).2.trans htp⟩
        · intro o ho
          simp [hos] at ho
        · intro o ho
          simp [hos] at ho

theorem maybeClose_inv {cfg : Config} {Δ : ℚ} (hΔ : 0 < Δ)
    (htail : cfg.TAIL_AFTER_CLOCK_MISS ≤ (cfg.CLOCK_MISSING_LIMIT : ℚ) * Δ)
    {d : ℚ} {st : DetectState} {t : ℚ} (hinv : DetectInv cfg Δ st t) :
    DetectInv cfg Δ (maybeClose cfg d st) t := by
  cases hos : st.open_segment_start with
  | none => rw [maybeClose_idle cfg d st hos]; exact hinv
  | some o₀ =>
    obtain ⟨l₀, hl₀, a1, a2, a3⟩ := hinv.open_lcs o₀ hos
    rw [maybeClose_open cfg d st o₀ l₀ hos hl₀]
    by_cases hcm : cfg.CLOCK_MISSING_LIMIT ≤ st.clock_missing_count
    · rw [if_pos hcm]
      have hend : min (l₀ + cfg.TAIL_AFTER_CLOCK_MISS) d ≤ t := by
        have h1 : (cfg.CLOCK_MISSING_LIMIT : ℚ) * Δ ≤ (st.clock_missing_count : ℚ) * Δ :=
          mul_le_mul_of_nonneg_right (by exact_mod_cast hcm) (le_of_lt hΔ)
        calc min (l₀ + cfg.TAIL_AFTER_CLOCK_MISS) d
            ≤ l₀ + cfg.TAIL_AFTER_CLOCK_MISS := min_le_left _ _
          _ ≤ l₀ + (cfg.CLOCK_MISSING_LIMIT : ℚ) * Δ := by linarith
          _ ≤ t := by linarith
      have hosegs := hinv.open_segs o₀ hos
      refine ⟨?_, ?_, ?_, ?_, ?_⟩
      · by_cases hg : cfg.MIN_SEGMENT_SEC ≤
            min (l₀ + cfg.TAIL_AFTER_CLOCK_MISS) d - o₀
        · rw [if_pos hg]
          refine List.pairwise_append.mpr
            ⟨hinv.seg_sorted, List.pairwise_singleton _ _, ?_⟩
          intro p hp q hq
          rw [List.mem_singleton] at hq
          subst hq
          exact hosegs p hp
        · rw [if_neg hg]; exact hinv.seg_sorted
      · by_cases hg : cfg.MIN_SEGMENT_SEC ≤
            min (l₀ + cfg.TAIL_AFTER_CLOCK_MISS) d - o₀
        · rw [if_pos hg]
          intro p hp
          rcases List.mem_append.mp hp with hh | hh
          · exact hinv.seg_min p hh
          · rw [List.mem_singleton] at hh; subst hh; exact hg
        · rw [if_neg hg]; exact hinv.seg_min
      · by_cases hg : cfg.MIN_SEGMENT_SEC ≤
            min (l₀ + cfg.TAIL_AFTER_CLOCK_MISS) d - o₀
        · rw [if_pos hg]
          intro p hp
          rcases List.mem_append.mp hp with hh | hh
          · exact hinv.seg_bound p hh
          · rw [List.mem_singleton] at hh; subst hh
            exact ⟨a1.trans a2, hend⟩
        · rw [if_neg hg]; exact hinv.seg_bound
      · intro o ho
        simp at ho
      · intro o ho
        simp at ho
    · rw [if_neg hcm]; exact hinv

theorem stepSample_inv {cfg : Config} {Δ : ℚ} (hΔ : 0 < Δ)
    (htail : cfg.TAIL_AFTER_CLOCK_MISS ≤ (cfg.CLOCK_MISSING_LIMIT : ℚ) * Δ)
    {d : ℚ} {st : DetectState} {tprev t : ℚ} {c : Option ℕ}
    (hinv : DetectInv cfg Δ st tprev) (hstep : tprev + Δ ≤ t) :
    DetectInv cfg Δ (stepSample cfg d st t c) t :=
  maybeClose_inv hΔ htail (readOpen_inv hΔ hinv hstep)

theorem runDetect_inv {cfg : Config} {Δ : ℚ} (hΔ : 0 < Δ)
    (htail : cfg.TAIL_AFTER_CLOCK_MISS ≤ (cfg.CLOCK_MISSING_LIMIT : ℚ) * Δ) (d : ℚ) :
    ∀ (s : List Sample) (st : DetectState) (t0 : ℚ),
      DetectInv cfg Δ st t0 →
      List.Chain' (fun a b => a + Δ ≤ b) (t0 :: s.map Prod.fst) →
      ∃ tf, DetectInv cfg Δ (runDetect cfg d st s) tf := by
  intro s
  induction s with
  | nil => intro st t0 hinv _; exact ⟨t0, hinv⟩
  | cons x xs ih =>
    intro st t0 hinv hchain
    rw [List.map_cons] at hchain
    rw [runDetect_cons]
    exact ih (stepSample cfg d st x.1 x.2) x.1
      (stepSample_inv hΔ htail hinv (List.chain'_cons.mp hchain).1)
      (List.chain'_cons.mp hchain).2

theorem finalize_pairwise {cfg : Config} {Δ : ℚ} {d : ℚ} {st : DetectState} {tf : ℚ}
    (hinv : DetectInv cfg Δ st tf) :
    (finalize cfg d st).Pairwise fun p q => p.1 < q.1 ∧ p.2 ≤ q.1 := by
  cases hos : st.open_segment_start with
  | none => rw [finalize_idle cfg d st hos]; exact hinv.seg_sorted
  | some o₀ =>
    rw [finalize_open cfg d st o₀ hos]
    by_cases hg : cfg.MIN_SEGMENT_SEC ≤ d - o₀
    · rw [if_pos hg]
      refine List.pairwise_append.mpr ⟨hinv.seg_sorted, List.pairwise_singleton _ _, ?_⟩
      intro p hp q hq
      rw [List.mem_singleton] at hq
      subst hq
      exact hinv.open_segs o₀ hos p hp
    · rw [if_neg hg]; exact hinv.seg_sorted

theorem readOpen_segments (cfg : Config) (st : DetectState) (t : ℚ) (c : Option ℕ) :
    (maybeOpen cfg (readClock st t c) t c).segments = st.segments := by
  cases c with
  | none => rw [readOpen_miss]
  | some v =>
    cases hos : st.open_segment_start with
    | some o₀ => rw [readOpen_seen_open cfg st t v o₀ hos]
    | none =>
      rw [readOpen_seen_idle cfg st t v hos]
      split <;> rfl

theorem maybeClose_min {cfg : Config} {d : ℚ} {st : DetectState}
    (h : ∀ p ∈ st.segments, cfg.MIN_SEGMENT_SEC ≤ p.2 - p.1) :
    ∀ p ∈ (maybeClose cfg d st).segments, cfg.MIN_SEGMENT_SEC ≤ p.2 - p.1 := by
  cases hos : st.open_segment_start with
  | none => rw [maybeClose_idle cfg d st hos]; exact h
  | some o₀ =>
    cases hlc : st.last_clock_seen_time with
    | none => rw [maybeClose_noLcs cfg d st hlc]; exact h
    | some l₀ =>
      rw [maybeClose_open cfg d st o₀ l₀ hos hlc]
      by_cases hcm : cfg.CLOCK_MISSING_LIMIT ≤ st.clock_missing_count
      · rw [if_pos hcm]
        by_cases hg : cfg.MIN_SEGMENT_SEC ≤
            min (l₀ + cfg.TAIL_AFTER_CLOCK_MISS) d - o₀
        · rw [if_pos hg]
          intro p hp
          rcases List.mem_append.mp hp with hh | hh
          · exact h p hh
          · rw [List.mem_singleton] at hh; subst hh; exact hg
        · rw [if_neg hg]; exact h
      · rw [if_neg hcm]; exact h

theorem stepSample_min {cfg : Config} {d : ℚ} {st : DetectState} {t : ℚ} {c : Option ℕ}
    (h : ∀ p ∈ st.segments, cfg.MIN_SEGMENT_SEC ≤ p.2 - p.1) :
    ∀ p ∈ (stepSample cfg d st t c).segments, cfg.MIN_SEGMENT_SEC ≤ p.2 - p.1 := by
  refine maybeClose_min ?_
  rw [readOpen_segments]
  exact h

theorem runDetect_min (cfg : Config) (d : ℚ) :
    ∀ (s : List Sample) (st : DetectState),
      (∀ p ∈ st.segments, cfg.MIN_SEGMENT_SEC ≤ p.2 - p.1) →
      ∀ p ∈ (runDetect cfg d st s).segments, cfg.MIN_SEGMENT_SEC ≤ p.2 - p.1 := by
  intro s
  induction s with
  | nil => intro st h; exact h
  | cons x xs ih =>
    intro st h
    rw [runDetect_cons]
    exact ih _ (stepSample_min h)

theorem finalize_min {cfg : Config} {d : ℚ} {st : DetectState}
    (h : ∀ p ∈ st.segments, cfg.MIN_SEGMENT_SEC ≤ p.2 - p.1) :
    ∀ p ∈ finalize cfg d st, cfg.MIN_SEGMENT_SEC ≤ p.2 - p.1 := by
  cases hos : st.open_segment_start with
  | none => rw [finalize_idle cfg d st hos]; exact h
  | some o₀ =>
    rw [finalize_open cfg d st o₀ hos]
    by_cases hg : cfg.MIN_SEGMENT_SEC ≤ d - o₀
    · rw [if_pos hg]
      intro p hp
      rcases List.mem_append.mp hp with hh | hh
      · exact h p hh
      · rw [List.mem_singleton] at hh; subst hh; exact hg
    · rw [if_neg hg]; exact h

/-- C1 (amended): for every configuration and stream, every emitted segment is
at least the minimum length; and for time-ordered streams whose consecutive
samples are at least `Δ > 0` apart with
`TAIL_AFTER_CLOCK_MISS ≤ CLOCK_MISSING_LIMIT * Δ` — true of the script, which
samples every 3 s with a limit of 10 and a tail of 20 — the emitted segments
are strictly ordered by start and pairwise non-overlapping. Without that
proviso overlap is possible (see the counterexample). -/
theorem detect_segments_props (cfg : Config) (d Δ : ℚ) (stream : List Sample) :
    (∀ p ∈ detect_segments cfg d stream, cfg.MIN_SEGMENT_SEC ≤ p.2 - p.1) ∧
    (0 < Δ → Spaced Δ stream →
      cfg.TAIL_AFTER_CLOCK_MISS ≤ (cfg.CLOCK_MISSING_LIMIT : ℚ) * Δ →
      (detect_segments cfg d stream).Pairwise fun p q => p.1 < q.1 ∧ p.2 ≤ q.1) := by
  constructor
  · exact finalize_min (runDetect_min cfg d stream initState (by simp [initState]))
  · intro hΔ hsp htail
    cases stream with
    | nil =>
      rw [show detect_segments cfg d [] = finalize cfg d initState from rfl,
        finalize_idle cfg d initState rfl]
      exact List.Pairwise.nil
    | cons x xs =>
      have hmap : List.Chain' (fun a b => a + Δ ≤ b) ((x :: xs).map Prod.fst) :=
        (@List.chain'_map ℚ Sample (fun a b => a + Δ ≤ b) Prod.fst (x :: xs)).mpr hsp
      rw [List.map_cons] at hmap
      have hchain : List.Chain' (fun a b => a + Δ ≤ b)
          ((x.1 - Δ) :: (x :: xs).map Prod.fst) := by
        rw [List.map_cons]
        exact List.chain'_cons.mpr ⟨by linarith, hmap⟩
      obtain ⟨tf, hinv⟩ := runDetect_inv hΔ htail d (x :: xs) initState (x.1 - Δ)
        (initState_inv cfg Δ (x.1 - Δ)) hchain
      exact finalize_pairwise hinv

/-- C1 counterexample: a legal configuration (gap 5, missing limit 2, tail 50,
minimum 10) on a second-by-second stream produces the segments
`(0, 51)` and `(5, 57)`, which overlap: the second game starts at 5, inside
the 50-second tail appended to the first. Ordering and minimum length hold;
disjointness does not. -/
theorem detect_segments_overlap_counterexample :
    detect_segments cexConfig 60 c1cexStream = [(0, 51), (5, 57)] ∧
    ¬ (detect_segments cexConfig 60 c1cexStream).Pairwise (fun p q => p.2 ≤ q.1) := by
  refine ⟨by with_unfolding_all decide, fun hpw => ?_⟩
  rw [(by with_unfolding_all decide :
    detect_segments cexConfig 60 c1cexStream = [(0, 51), (5, 57)])] at hpw
  have h := (List.pairwise_cons.mp hpw).1 (5, 57) (by simp)
  norm_num at h

/-- Witness for the amended C1 at the default configuration on a 3-second
stream producing one segment. -/
theorem detect_segments_props_witness :
    (∀ p ∈ detect_segments defaultConfig 1000 w1stream,
      defaultConfig.MIN_SEGMENT_SEC ≤ p.2 - p.1) ∧
    (detect_segments defaultConfig 1000 w1stream).Pairwise
      (fun p q => p.1 < q.1 ∧ p.2 ≤ q.1) := by
  have h := detect_segments_props defaultConfig 1000 3 w1stream
  refine ⟨h.1, h.2 (by norm_num) ?_ (by norm_num [defaultConfig])⟩
  have hs := spaced_range_map (fun k => if k ≤ 50 then some 100 else none) 61 3
  have h3 : ((3 : ℕ) : ℚ) = (3 : ℚ) := by norm_num
  rwa [h3] at hs

end SplitLolGames
